import Mathlib

/-!
Shallow embedding of the cainban task-management core
(`src/systems/task/task.go`, final iteration) together with proofs about
its behaviour.

Strings are modelled as lists of characters (`Str`); Go's byte-oriented
`len` coincides with list length on the ASCII data exercised here.
Timestamps (`CURRENT_TIMESTAMP`) are modelled as natural numbers supplied
explicitly to every mutating operation.  The SQLite store is modelled as
in-memory lists of task and link rows; `rowsAffected` of an UPDATE/DELETE
becomes the count of rows matched by the corresponding WHERE clause.
Errors are classified by the taxonomy of the specification (§7):
each failing code path is mapped to the class the specification assigns
to its message (`not found` → notFound, `cannot link task to itself`
→ validation, `not found or already deleted` → conflict, …).
-/

deriving instance DecidableEq for Except

namespace Cainban

/-- Strings as character lists (Go strings; ASCII byte length = list length). -/
abbrev Str := List Char

/-- Go `strings.ToLower` (ASCII case folding). -/
def lowerStr (s : Str) : Str := s.map Char.toLower

/-- Whitespace test used by `strings.TrimSpace` / `strings.Fields`. -/
def isSpaceChar (c : Char) : Bool := c.isWhitespace

/-- Go `strings.TrimSpace`: drop leading and trailing whitespace. -/
def trimSpace (s : Str) : Str :=
  ((s.dropWhile isSpaceChar).reverse.dropWhile isSpaceChar).reverse

/-- Go `strings.Contains s sub`: `sub` occurs as a contiguous substring of `s`. -/
def containsStr (s sub : Str) : Bool :=
  match s with
  | [] => sub.isEmpty
  | c :: t => sub.isPrefixOf (c :: t) || containsStr t sub

/-- Accumulator for `fieldsStr` (`strings.Fields`): `acc` is the current
word, reversed. -/
def fieldsAux (acc : Str) : Str → List Str
  | [] => if acc.isEmpty then [] else [acc.reverse]
  | c :: s =>
    if isSpaceChar c then
      if acc.isEmpty then fieldsAux [] s else acc.reverse :: fieldsAux [] s
    else fieldsAux (c :: acc) s

/-- Go `strings.Fields`: split around runs of whitespace, no empty words. -/
def fieldsStr (s : Str) : List Str := fieldsAux [] s

/-- The function `fuzzyMatchScore` from `task.go`: both arguments are already prepared
(title lower-cased; query lower-cased and trimmed) by the caller. -/
def fuzzyMatchScore (title query : Str) : Nat :=
  if title = query then 1000
  else if containsStr title query then 500 + query.length * 10
  else
    let titleWords := fieldsStr title
    let queryWords := fieldsStr query
    let score := queryWords.foldl (fun acc qw =>
      titleWords.foldl (fun acc2 tw =>
        if qw.isPrefixOf tw then acc2 + qw.length * 5
        else if containsStr tw qw then acc2 + qw.length * 2
        else acc2) acc) 0
    if queryWords.length > 1 && decide (0 < score) then score + 50 else score

/-- The contribution of one (query word, title word) pair, written the way
the specification describes it: 5·len for a word-start match, 2·len for a
containment that is not a word-start match. -/
def pairContribution (qw tw : Str) : Nat :=
  if qw.isPrefixOf tw then 5 * qw.length
  else if containsStr tw qw && !qw.isPrefixOf tw then 2 * qw.length
  else 0

/-- The scoring formula as the specification states it (§4.3): a sum over
all (query word, title word) pairs, plus the flat multi-word bonus. -/
def claimScore (title query : Str) : Nat :=
  if title = query then 1000
  else if containsStr title query then 500 + 10 * query.length
  else
    let base :=
      ((fieldsStr query).map (fun qw =>
        ((fieldsStr title).map (fun tw => pairContribution qw tw)).sum)).sum
    if (fieldsStr query).length > 1 ∧ 0 < base then base + 50 else base

example : fuzzyMatchScore ("implement user authentication".data) ("auth".data) = 540 := by decide
example : fuzzyMatchScore ("ax".data) ("x".data) = 510 := by decide
example : fuzzyMatchScore ("x".data) ("x".data) = 1000 := by decide
example : fuzzyMatchScore ("a".data) ([]) = 500 := by decide
example : trimSpace (" ".data) = [] := by decide
example : fieldsStr ("fix login bug".data) = ["fix".data, "login".data, "bug".data] := by decide

/-- A row of the `tasks` table. -/
structure Task where
  id : Nat
  boardID : Nat
  title : Str
  description : Str
  status : Str
  priority : Nat
  deletedAt : Option Nat
  createdAt : Nat
  updatedAt : Nat
deriving Repr, DecidableEq

/-- A row of the `task_links` table. -/
structure TaskLink where
  id : Nat
  fromTaskID : Nat
  toTaskID : Nat
  linkType : Str
  createdAt : Nat
deriving Repr, DecidableEq

/-- The SQLite store: the two tables plus their AUTOINCREMENT counters. -/
structure Store where
  tasks : List Task
  links : List TaskLink
  nextTaskID : Nat
  nextLinkID : Nat
deriving Repr, DecidableEq

/-- Error classes of the specification's taxonomy (§7) relevant to the
task core. -/
inductive Err where
  | validation
  | notFound
  | conflict
deriving Repr, DecidableEq

/-- The priority argument of `CreateWithPriority`/`UpdatePriority`
(Go `interface\x7b\x7d` accepting an integer or a name; the JSON float64
path is the same integer check after a whole-number test and is not
modelled separately). -/
inductive PriorityInput where
  | num (n : Int)
  | name (s : Str)
deriving Repr, DecidableEq

/-- The `PriorityLevels` map from `task.go`. -/
def priorityLevels : List (Str × Nat) :=
  [("none".data, 0), ("low".data, 1), ("medium".data, 2),
   ("high".data, 3), ("critical".data, 4)]

/-- The lookup `PriorityLevels[strings.ToLower(p)]`. -/
def lookupPriority (s : Str) : Option Nat :=
  (priorityLevels.find? (fun p => p.1 == lowerStr s)).map (·.2)

/-- Go `IsValidPriority`. -/
def isValidPriority : PriorityInput → Bool
  | .num n => 0 ≤ n && n ≤ 4
  | .name s => (lookupPriority s).isSome

/-- Go `ParsePriority`, as used by `CreateWithPriority` after `IsValidPriority`
has succeeded (the error branch is ignored there, so a total function with
a junk default is faithful). -/
def parsePriorityLevel : PriorityInput → Nat
  | .num n => n.toNat
  | .name s => (lookupPriority s).getD 0

/-- Go `ValidStatuses`. -/
def validStatuses : List Str := ["todo".data, "doing".data, "done".data]

/-- Go `IsValidStatus`. -/
def isValidStatus (s : Str) : Bool := validStatuses.any (fun v => v == s)

/-- Go `ValidateTitle`: trim, reject empty, reject length over 255.  The error
is a ValidationError in the specification's taxonomy. -/
def validateTitle (title : Str) : Except Err Unit :=
  let t := trimSpace title
  if t = [] then .error .validation
  else if t.length > 255 then .error .validation
  else .ok ()

/-- First row with the given id that is not soft-deleted
(`WHERE id = ? AND deleted_at IS NULL`). -/
def Store.activeWithID (s : Store) (id : Nat) : Option Task :=
  s.tasks.find? (fun t => t.id == id && t.deletedAt.isNone)

/-- Go `GetByID` (spec `GetTask`). -/
def getByID (s : Store) (id : Nat) : Except Err Task :=
  match s.activeWithID id with
  | some t => .ok t
  | none => .error .notFound

/-- Listing order `ORDER BY priority DESC, created_at ASC`:
`a` comes no later than `b`. -/
def taskLE (a b : Task) : Prop :=
  b.priority < a.priority ∨ (a.priority = b.priority ∧ a.createdAt ≤ b.createdAt)

instance : DecidableRel taskLE := fun a b => by unfold taskLE; infer_instance

/-- Go `List` (spec `ListTasks`): active tasks of the board, ordered by
priority descending then creation time ascending. -/
def listTasks (s : Store) (boardID : Nat) : List Task :=
  List.insertionSort taskLE
    (s.tasks.filter (fun t => t.boardID == boardID && t.deletedAt.isNone))

/-- Go `UpdateStatus` (spec `UpdateTaskStatus`).  The UPDATE's WHERE clause
is `id = ?` only — it does not filter on `deleted_at`. -/
def updateStatus (s : Store) (id : Nat) (status : Str) (now : Nat) : Except Err Store :=
  if ¬ isValidStatus status then .error .validation
  else if s.tasks.countP (fun t => t.id == id) = 0 then .error .notFound
  else .ok { s with tasks := s.tasks.map (fun t =>
    if t.id = id then { t with status := status, updatedAt := now } else t) }

/-- Go `Update` (spec `UpdateTask`): title/description update; WHERE `id = ?`. -/
def updateTask (s : Store) (id : Nat) (title description : Str) (now : Nat) :
    Except Err Store :=
  match validateTitle title with
  | .error e => .error e
  | .ok _ =>
    if s.tasks.countP (fun t => t.id == id) = 0 then .error .notFound
    else .ok { s with tasks := s.tasks.map (fun t =>
      if t.id = id then { t with title := title, description := description, updatedAt := now } else t) }

/-- Go `CreateWithPriority` (spec `CreateTask`): the row is appended with the
next AUTOINCREMENT id, status `todo`, active, both timestamps `now`. -/
def createWithPriority (s : Store) (boardID : Nat) (title description : Str)
    (priority : PriorityInput) (now : Nat) : Except Err (Store × Task) :=
  match validateTitle title with
  | .error e => .error e
  | .ok _ =>
    if ¬ isValidPriority priority then .error .validation
    else
      let t : Task :=
        { id := s.nextTaskID, boardID := boardID, title := title,
          description := description, status := "todo".data,
          priority := parsePriorityLevel priority, deletedAt := none,
          createdAt := now, updatedAt := now }
      .ok ({ s with tasks := s.tasks ++ [t], nextTaskID := s.nextTaskID + 1 }, t)

/-- Go `SoftDelete`: `UPDATE … WHERE id = ? AND deleted_at IS NULL`; zero
affected rows is the "not found or already deleted" failure, a
ConflictError in the specification's taxonomy (§4.2). -/
def softDelete (s : Store) (id now : Nat) : Except Err Store :=
  if s.tasks.countP (fun t => t.id == id && t.deletedAt.isNone) = 0 then .error .conflict
  else .ok { s with tasks := s.tasks.map (fun t =>
    if t.id = id ∧ t.deletedAt = none
    then { t with deletedAt := some now, updatedAt := now } else t) }

/-- Go `RestoreTask`: `UPDATE … WHERE id = ? AND deleted_at IS NOT NULL`;
zero affected rows is the "not found or not deleted" failure, a
ConflictError in the specification's taxonomy (§4.2). -/
def restoreTask (s : Store) (id now : Nat) : Except Err Store :=
  if s.tasks.countP (fun t => t.id == id && t.deletedAt.isSome) = 0 then .error .conflict
  else .ok { s with tasks := s.tasks.map (fun t =>
    if t.id = id ∧ t.deletedAt ≠ none
    then { t with deletedAt := none, updatedAt := now } else t) }

/-- Go `HardDelete`: one transaction deleting the links touching the task and
then the task row; zero affected task rows rolls the transaction back and
reports NotFound, so in that case the links are untouched as well. -/
def hardDelete (s : Store) (id : Nat) : Except Err Store :=
  if s.tasks.countP (fun t => t.id == id) = 0 then .error .notFound
  else .ok { s with
    tasks := s.tasks.filter (fun t => !(t.id == id)),
    links := s.links.filter (fun l => !(l.fromTaskID == id || l.toTaskID == id)) }

/-- Go `LinkTasks`: endpoint existence via `GetByID` (NotFound), then the
self-link check (ValidationError), then the INSERT, whose
`UNIQUE(from_task_id, to_task_id, link_type)` violation is the duplicate
failure (ConflictError per §7).  No link-type check appears anywhere on
this path. -/
def linkTasks (s : Store) (fromID toID : Nat) (lt : Str) (now : Nat) :
    Except Err Store :=
  match getByID s fromID with
  | .error e => .error e
  | .ok _ =>
  match getByID s toID with
  | .error e => .error e
  | .ok _ =>
  if fromID = toID then .error .validation
  else if s.links.any (fun l =>
      l.fromTaskID == fromID && l.toTaskID == toID && l.linkType == lt)
  then .error .conflict
  else .ok { s with
    links := s.links ++ [⟨s.nextLinkID, fromID, toID, lt, now⟩],
    nextLinkID := s.nextLinkID + 1 }

/-- One pass of the in-place double loop in `SearchTasks` (inner loop body
`if scored[j].score > scored[i].score \x7b swap \x7d` for a fixed `i`):
given the current slot value `cur` and the remaining suffix, returns the
value left in slot `i` after the pass together with the rewritten suffix. -/
def selStep (cur : Task × Nat) : List (Task × Nat) → (Task × Nat) × List (Task × Nat)
  | [] => (cur, [])
  | x :: xs =>
    if cur.2 < x.2 then
      let r := selStep x xs
      (r.1, cur :: r.2)
    else
      let r := selStep cur xs
      (r.1, x :: r.2)

/-- The full double loop of `SearchTasks`, with the outer loop counter as
structural fuel (the fuel always equals the list length, see `selSort`). -/
def selSortGo : Nat → List (Task × Nat) → List (Task × Nat)
  | 0, l => l
  | _ + 1, [] => []
  | n + 1, x :: xs =>
    let r := selStep x xs
    r.1 :: selSortGo n r.2

/-- The score sort of `SearchTasks` (swap-based selection sort with a
strict comparison). -/
def selSort (l : List (Task × Nat)) : List (Task × Nat) := selSortGo l.length l

/-- The query as prepared by `SearchTasks` before scoring:
`strings.ToLower(strings.TrimSpace(query))`. -/
def prepQuery (query : Str) : Str := lowerStr (trimSpace query)

/-- The score `SearchTasks` computes for one task. -/
def scoreFor (q : Str) (t : Task) : Nat := fuzzyMatchScore (lowerStr t.title) q

/-- Go `SearchTasks`: rejects only the literally empty query (the trim comes
after the emptiness check), scores the board's listing, keeps positive
scores, sorts with the double loop and drops the scores. -/
def searchTasks (s : Store) (boardID : Nat) (query : Str) :
    Except Err (List Task) :=
  if query = [] then .error .validation
  else
    let q := prepQuery query
    let scored := (listTasks s boardID).filterMap (fun t =>
      let sc := scoreFor q t
      if 0 < sc then some (t, sc) else none)
    .ok ((selSort scored).map Prod.fst)

/-- Link listing order `ORDER BY created_at DESC`. -/
def linkLE (a b : TaskLink) : Prop := b.createdAt ≤ a.createdAt

instance : DecidableRel linkLE := fun a b => by unfold linkLE; infer_instance

/-- Go `GetTaskLinks`: every link having the task as either endpoint, most
recent first.  A pure SELECT — no existence check on the id. -/
def getTaskLinks (s : Store) (id : Nat) : List TaskLink :=
  List.insertionSort linkLE
    (s.links.filter (fun l => l.fromTaskID == id || l.toTaskID == id))

/-- An active task row with no description, status `todo`, priority 0. -/
def mkRow (id bid : Nat) (title : String) (created : Nat) : Task :=
  { id := id, boardID := bid, title := title.data, description := [],
    status := "todo".data, priority := 0, deletedAt := none,
    createdAt := created, updatedAt := created }

/-- Three active tasks on board 1 whose scores against query "x" are
510, 510 and 1000 in listing order. -/
def c2Store : Store :=
  { tasks := [mkRow 1 1 "ax" 1, mkRow 2 1 "bx" 2, mkRow 3 1 "x" 3],
    links := [], nextTaskID := 4, nextLinkID := 1 }

example : listTasks c2Store 1 = [mkRow 1 1 "ax" 1, mkRow 2 1 "bx" 2, mkRow 3 1 "x" 3] := by decide
example : searchTasks c2Store 1 ("x".data) =
    .ok [mkRow 3 1 "x" 3, mkRow 2 1 "bx" 2, mkRow 1 1 "ax" 1] := by decide

/-- A store with no rows at all. -/
def emptyStore : Store := { tasks := [], links := [], nextTaskID := 1, nextLinkID := 1 }

/-- A store holding exactly one active task, id 1, board 1. -/
def oneTaskStore : Store :=
  { tasks := [mkRow 1 1 "a" 1], links := [], nextTaskID := 2, nextLinkID := 1 }

/-- C1, counterexample: on a store with no task 5 at all, the self-link
`LinkTasks(5, 5, blocks)` fails with NotFound (the endpoint check runs
before the self-link check), not with ValidationError as claimed. -/
theorem C1_counterexample :
    linkTasks emptyStore 5 5 ("blocks".data) 0 = .error .notFound ∧
    linkTasks emptyStore 5 5 ("blocks".data) 0 ≠ .error .validation := by decide

/-- C1, amended: `LinkTasks(x, x, linkType)` always fails, but the error
class depends on existence: ValidationError when `x` is an active task,
NotFoundError when it is not. -/
theorem C1_self_link (s : Store) (x : Nat) (lt : Str) (now : Nat) :
    ((s.activeWithID x).isSome → linkTasks s x x lt now = .error .validation) ∧
    ((s.activeWithID x).isNone → linkTasks s x x lt now = .error .notFound) := by
  cases h : s.activeWithID x <;> simp [linkTasks, getByID, h]

/-- C1, witness for the amended theorem at concrete inputs. -/
theorem C1_self_link_witness :
    linkTasks oneTaskStore 1 1 ("blocks".data) 5 = .error .validation ∧
    linkTasks emptyStore 5 5 ("related".data) 0 = .error .notFound :=
  ⟨(C1_self_link oneTaskStore 1 ("blocks".data) 5).1 (by decide),
   (C1_self_link emptyStore 5 ("related".data) 0).2 (by decide)⟩

/-- A row with id 1 that has been soft-deleted at time 2. -/
def softDeletedRow : Task := { mkRow 1 1 "t" 1 with deletedAt := some 2 }

/-- The row `softDeletedRow` after a status update to `done` at time 5. -/
def softDeletedRowDone : Task :=
  { softDeletedRow with status := "done".data, updatedAt := 5 }

/-- A store whose only row with id 1 is soft-deleted. -/
def softDeletedStore : Store :=
  { tasks := [softDeletedRow], links := [], nextTaskID := 2, nextLinkID := 1 }

/-- C3, counterexample: on a store whose only row with id 1 is
soft-deleted, `UpdateTaskStatus(1, done)` does not fail with NotFound as
claimed — the UPDATE's WHERE clause does not filter on `deleted_at`, so
the soft-deleted row is updated. -/
theorem C3_counterexample :
    updateStatus softDeletedStore 1 ("done".data) 5 ≠ .error .notFound ∧
    updateStatus softDeletedStore 1 ("done".data) 5 =
      .ok { softDeletedStore with tasks := [softDeletedRowDone] } := by decide

/-- C3, amended: `UpdateTaskStatus` fails with ValidationError on an
unrecognized status; with a valid status it fails with NotFoundError iff
no row at all (active or soft-deleted) carries the id, and otherwise
rewrites every row with that id to the new status with `updated_at`
refreshed, leaving all other rows unchanged. -/
theorem C3_update_status (s : Store) (id : Nat) (st : Str) (now : Nat) :
    (¬ isValidStatus st → updateStatus s id st now = .error .validation) ∧
    (isValidStatus st →
      (updateStatus s id st now = .error .notFound ↔ ∀ t ∈ s.tasks, t.id ≠ id)) ∧
    (isValidStatus st → ∀ t ∈ s.tasks, t.id = id →
      updateStatus s id st now = .ok { s with tasks := s.tasks.map (fun u =>
        if u.id = id then { u with status := st, updatedAt := now } else u) }) := by
  refine ⟨fun h => by simp [updateStatus, h], fun h => ?_, fun h t hmem hid => ?_⟩
  · by_cases hc : s.tasks.countP (fun t => t.id == id) = 0
    · simp [updateStatus, h, hc]
      intro t hmem
      simpa using List.countP_eq_zero.mp hc t hmem
    · simp [updateStatus, h, hc]
      by_contra hnone
      push_neg at hnone
      exact hc (List.countP_eq_zero.mpr (fun t hmem => by simpa using hnone t hmem))
  · have hc : s.tasks.countP (fun t => t.id == id) ≠ 0 := by
      intro hc
      have := List.countP_eq_zero.mp hc t hmem
      simp [hid] at this
    simp [updateStatus, h, hc]

/-- C3, witness for the amended theorem: the soft-deleted row is updated. -/
theorem C3_update_status_witness :
    updateStatus softDeletedStore 1 ("done".data) 5 =
      .ok { softDeletedStore with tasks := [softDeletedRowDone] } := by
  have h := (C3_update_status softDeletedStore 1 ("done".data) 5).2.2 (by decide)
    softDeletedRow (by decide) (by decide)
  simpa using h

/-- C9, counterexample: a whitespace-only query is not rejected — the
emptiness check runs before trimming — and, trimming to the empty string
(a substring of every title), it matches every active task. -/
theorem C9_counterexample :
    searchTasks oneTaskStore 1 (" ".data) = .ok [mkRow 1 1 "a" 1] ∧
    searchTasks oneTaskStore 1 (" ".data) ≠ .error .validation ∧
    trimSpace (" ".data) = [] := by decide

/-- C9, amended: `SearchTasks` fails with ValidationError exactly when the
query is the literally empty string; the check precedes the trim, so
whitespace-only queries are accepted. -/
theorem C9_empty_query (s : Store) (bid : Nat) (q : Str) :
    searchTasks s bid q = .error .validation ↔ q = [] := by
  by_cases h : q = [] <;> simp [searchTasks, h]

/-- The closed set of link types declared in `task.go` and documented by
the specification (§3). -/
def validLinkTypes : List Str :=
  ["blocks".data, "blocked_by".data, "related".data, "depends_on".data]

/-- Two active tasks, ids 1 and 2, on board 1; no links. -/
def twoTaskStore : Store :=
  { tasks := [mkRow 1 1 "a" 1, mkRow 2 1 "b" 2], links := [],
    nextTaskID := 3, nextLinkID := 1 }

/-- The link row inserted by `LinkTasks(1, 2, "urgent")` on `twoTaskStore`. -/
def urgentLink : TaskLink :=
  { id := 1, fromTaskID := 1, toTaskID := 2, linkType := "urgent".data, createdAt := 9 }

/-- C7, counterexample: with two distinct active tasks, `LinkTasks` with
the unrecognized link type "urgent" succeeds and inserts the row — neither
the Go code nor the schema checks the link type — contradicting the
claimed ValidationError. -/
theorem C7_counterexample :
    linkTasks twoTaskStore 1 2 ("urgent".data) 9 =
      .ok { twoTaskStore with links := [urgentLink], nextLinkID := 2 } ∧
    ("urgent".data ∉ validLinkTypes) ∧
    linkTasks twoTaskStore 1 2 ("urgent".data) 9 ≠ .error .validation := by decide

/-- C7, amended: `LinkTasks` performs no link-type validation at all: for
distinct active endpoints and any link-type string whatsoever, it inserts
the row as long as the exact (from, to, type) triple is not already
present. -/
theorem C7_link_type_unchecked (s : Store) (f g : Nat) (lt : Str) (now : Nat)
    (hf : (s.activeWithID f).isSome) (hg : (s.activeWithID g).isSome)
    (hne : f ≠ g)
    (hdup : ∀ l ∈ s.links, ¬(l.fromTaskID = f ∧ l.toTaskID = g ∧ l.linkType = lt)) :
    linkTasks s f g lt now = .ok { s with
      links := s.links ++ [⟨s.nextLinkID, f, g, lt, now⟩],
      nextLinkID := s.nextLinkID + 1 } := by
  obtain ⟨a, ha⟩ := Option.isSome_iff_exists.mp hf
  obtain ⟨b, hb⟩ := Option.isSome_iff_exists.mp hg
  have hany : s.links.any (fun l =>
      l.fromTaskID == f && l.toTaskID == g && l.linkType == lt) = false := by
    rw [List.any_eq_false]
    intro l hl
    simp only [Bool.and_eq_true, beq_iff_eq, not_and]
    intro h1 h2
    exact hdup l hl ⟨h1.1, h1.2, h2⟩
  simp [linkTasks, getByID, ha, hb, hne, hany]

/-- C7, witness for the amended theorem with the unrecognized type
"urgent". -/
theorem C7_link_type_unchecked_witness :
    linkTasks twoTaskStore 1 2 ("urgent".data) 9 = .ok { twoTaskStore with
      links := twoTaskStore.links ++ [⟨twoTaskStore.nextLinkID, 1, 2, "urgent".data, 9⟩],
      nextLinkID := twoTaskStore.nextLinkID + 1 } :=
  C7_link_type_unchecked twoTaskStore 1 2 ("urgent".data) 9
    (by decide) (by decide) (by decide) (by decide)

/-- A task with one link attached, whose other endpoint (id 2) has no row. -/
def c10Store : Store :=
  { tasks := [mkRow 1 1 "a" 1],
    links := [{ id := 1, fromTaskID := 1, toTaskID := 2,
                linkType := "blocks".data, createdAt := 3 }],
    nextTaskID := 2, nextLinkID := 2 }

/-- The store `c10Store` after soft-deleting task 1 at time 4. -/
def c10SoftStore : Store :=
  { c10Store with tasks :=
      [{ mkRow 1 1 "a" 1 with deletedAt := some 4, updatedAt := 4 }] }

/-- C10: `GetTaskLinks` is a pure SELECT with no not-found path: an id
with no links — whether or not any task row carries it — yields the empty
list; soft-deleting a task changes no link query result (links to
soft-deleted endpoints are still returned); and everything returned is a
stored link having the id as an endpoint. -/
theorem C10_get_task_links (s : Store) (id : Nat) :
    ((∀ l ∈ s.links, l.fromTaskID ≠ id ∧ l.toTaskID ≠ id) → getTaskLinks s id = []) ∧
    (∀ tid now s2, softDelete s tid now = .ok s2 →
      getTaskLinks s2 id = getTaskLinks s id) ∧
    (∀ l ∈ getTaskLinks s id, l ∈ s.links ∧ (l.fromTaskID = id ∨ l.toTaskID = id)) := by
  refine ⟨fun hno => ?_, fun tid now s2 hok => ?_, fun l hl => ?_⟩
  · have hfil : s.links.filter (fun l => l.fromTaskID == id || l.toTaskID == id) = [] := by
      rw [List.filter_eq_nil_iff]
      intro l hl
      have := hno l hl
      simp [this.1, this.2]
    simp [getTaskLinks, hfil, List.insertionSort]
  · unfold softDelete at hok
    split at hok
    · cases hok
    · cases hok
      rfl
  · have hmem := (List.perm_insertionSort linkLE
      (s.links.filter (fun l => l.fromTaskID == id || l.toTaskID == id))).mem_iff.mp hl
    have := List.mem_filter.mp hmem
    refine ⟨this.1, ?_⟩
    simpa using this.2

/-- C10, witness: an id with no links (and no task row) yields `[]`, and
the link survives soft-deletion of its endpoint. -/
theorem C10_get_task_links_witness :
    getTaskLinks c10Store 7 = [] ∧
    getTaskLinks c10SoftStore 2 = getTaskLinks c10Store 2 :=
  ⟨(C10_get_task_links c10Store 7).1 (by decide),
   (C10_get_task_links c10Store 2).2.1 1 4 c10SoftStore (by decide)⟩

/-- Only two outcomes of `ValidateTitle`. -/
theorem validateTitle_cases (t : Str) :
    validateTitle t = .ok () ∨ validateTitle t = .error .validation := by
  unfold validateTitle
  by_cases h1 : trimSpace t = [] <;> by_cases h2 : (trimSpace t).length > 255 <;>
    simp [h1, h2]

/-- C8: `ValidateTitle` fails exactly on titles that trim to the empty
string or exceed 255 characters after trimming, and the very same check is
what makes `CreateWithPriority` (spec `CreateTask`) and `Update`
(spec `UpdateTask`) fail with ValidationError (creation also validates the
priority). -/
theorem C8_title_validation :
    (∀ s : Str, validateTitle s = .error .validation ↔
        (trimSpace s = [] ∨ 255 < (trimSpace s).length)) ∧
    (∀ (st : Store) (bid : Nat) (title desc : Str) (p : PriorityInput) (now : Nat),
        createWithPriority st bid title desc p now = .error .validation ↔
          (validateTitle title = .error .validation ∨ isValidPriority p = false)) ∧
    (∀ (st : Store) (id : Nat) (title desc : Str) (now : Nat),
        updateTask st id title desc now = .error .validation ↔
          validateTitle title = .error .validation) := by
  refine ⟨fun s => ?_, fun st bid title desc p now => ?_, fun st id title desc now => ?_⟩
  · unfold validateTitle
    by_cases h1 : trimSpace s = [] <;> by_cases h2 : (trimSpace s).length > 255 <;>
      simp [h1, h2]
  · rcases validateTitle_cases title with hv | hv <;>
      by_cases hp : isValidPriority p <;>
      simp [createWithPriority, hv, hp]
  · rcases validateTitle_cases title with hv | hv
    · by_cases hc : st.tasks.countP (fun t => t.id == id) = 0 <;>
        simp [updateTask, hv, hc]
    · simp [updateTask, hv]

/-- Under id-uniqueness, `find?` over the per-row image of a task list
returns the image of the member `t` whenever the predicate accepts that
image and rejects the image of every row with a different id. -/
theorem find?_map_eq_of_unique (l : List Task) (h : Task → Task) (q : Task → Bool)
    (t : Task) (hmem : t ∈ l) (huniq : l.Pairwise (fun a b => a.id ≠ b.id))
    (hqt : q (h t) = true)
    (hq : ∀ u, u.id ≠ t.id → q (h u) = false) :
    (l.map h).find? q = some (h t) := by
  induction l with
  | nil => cases hmem
  | cons u rest ih =>
    rcases List.mem_cons.mp hmem with rfl | hmem2
    · simp [List.find?_cons, hqt]
    · have hne : u.id ≠ t.id := (List.pairwise_cons.mp huniq).1 t hmem2
      have hqu := hq u hne
      simp only [List.map_cons, List.find?_cons, hqu]
      exact ih hmem2 (List.pairwise_cons.mp huniq).2

/-- C5: soft-delete hides but does not erase.  For an active task `t` in a
store with unique ids, `SoftDelete(t.id)` succeeds, after which
`GetTask(t.id)` is NotFound and `ListTasks` excludes the id; then
`RestoreTask(t.id)` succeeds and `GetTask(t.id)` returns `t` unchanged in
every field except `updated_at`, which has advanced. -/
theorem C5_soft_delete_restore (s : Store) (t : Task) (now1 now2 : Nat)
    (hmem : t ∈ s.tasks) (huniq : s.tasks.Pairwise (fun a b => a.id ≠ b.id))
    (hact : t.deletedAt = none) (hadv : t.updatedAt < now2) :
    ∃ s1, softDelete s t.id now1 = .ok s1 ∧
      getByID s1 t.id = .error .notFound ∧
      (∀ u ∈ listTasks s1 t.boardID, u.id ≠ t.id) ∧
      ∃ s2, restoreTask s1 t.id now2 = .ok s2 ∧
        getByID s2 t.id = .ok { t with updatedAt := now2 } ∧
        t.updatedAt < now2 := by
  have hc1 : s.tasks.countP (fun u => u.id == t.id && u.deletedAt.isNone) ≠ 0 := by
    intro hz
    have := List.countP_eq_zero.mp hz t hmem
    simp [hact] at this
  refine ⟨{ s with tasks := s.tasks.map (fun u =>
      if u.id = t.id ∧ u.deletedAt = none
      then { u with deletedAt := some now1, updatedAt := now1 } else u) },
    by simp [softDelete, hc1], ?_, ?_, ?_⟩
  · unfold getByID Store.activeWithID
    rw [List.find?_eq_none.mpr]
    intro x hx
    obtain ⟨u, hu, rfl⟩ := List.mem_map.mp hx
    by_cases hid : u.id = t.id
    · by_cases hdel : u.deletedAt = none <;> simp [hid, hdel]
    · simp [hid]
  · intro u hu
    have hu2 := (List.perm_insertionSort taskLE _).mem_iff.mp hu
    have hu3 := List.mem_filter.mp hu2
    obtain ⟨v, hv, rfl⟩ := List.mem_map.mp hu3.1
    have hpred := hu3.2
    by_cases hid : v.id = t.id
    · by_cases hdel : v.deletedAt = none <;> simp [hid, hdel] at hpred
    · simp [hid]
  · have hmem1 : ({ t with deletedAt := some now1, updatedAt := now1 } : Task) ∈
        s.tasks.map (fun u =>
          if u.id = t.id ∧ u.deletedAt = none
          then { u with deletedAt := some now1, updatedAt := now1 } else u) := by
      have := List.mem_map_of_mem (f := fun u =>
        if u.id = t.id ∧ u.deletedAt = none
        then { u with deletedAt := some now1, updatedAt := now1 } else u) hmem
      simpa [hact] using this
    have hc2 : (s.tasks.map (fun u =>
        if u.id = t.id ∧ u.deletedAt = none
        then { u with deletedAt := some now1, updatedAt := now1 } else u)).countP
          (fun u => u.id == t.id && u.deletedAt.isSome) ≠ 0 := by
      intro hz
      have := List.countP_eq_zero.mp hz _ hmem1
      simp at this
    refine ⟨{ s with tasks := (s.tasks.map (fun u =>
        if u.id = t.id ∧ u.deletedAt = none
        then { u with deletedAt := some now1, updatedAt := now1 } else u)).map (fun u =>
        if u.id = t.id ∧ u.deletedAt ≠ none
        then { u with deletedAt := none, updatedAt := now2 } else u) }, ?_, ?_, hadv⟩
    · unfold restoreTask
      rw [if_neg hc2]
    · unfold getByID Store.activeWithID
      simp only [List.map_map]
      have hfind := find?_map_eq_of_unique s.tasks
        ((fun u => if u.id = t.id ∧ u.deletedAt ≠ none
            then { u with deletedAt := none, updatedAt := now2 } else u) ∘
         (fun u => if u.id = t.id ∧ u.deletedAt = none
            then { u with deletedAt := some now1, updatedAt := now1 } else u))
        (fun u => u.id == t.id && u.deletedAt.isNone) t hmem huniq
        (by simp [Function.comp, hact])
        (fun u hu => by simp [Function.comp, hu])
      rw [hfind]
      simp [Function.comp, hact]

/-- C5, witness at a concrete one-task store. -/
theorem C5_soft_delete_restore_witness :
    ∃ s1, softDelete oneTaskStore 1 2 = .ok s1 ∧
      getByID s1 1 = .error .notFound ∧
      (∀ u ∈ listTasks s1 1, u.id ≠ 1) ∧
      ∃ s2, restoreTask s1 1 3 = .ok s2 ∧
        getByID s2 1 = .ok { mkRow 1 1 "a" 1 with updatedAt := 3 } ∧
        (mkRow 1 1 "a" 1).updatedAt < 3 :=
  C5_soft_delete_restore oneTaskStore (mkRow 1 1 "a" 1) 2 3
    (by decide) (by decide) (by decide) (by decide)

/-- C6: `HardDelete` succeeds whenever some row (active or soft-deleted)
carries the id; it removes the task row and every link touching it in the
same step, so no subsequent link query for any other task returns a link
involving the deleted id, and a later restore fails.  When no row carries
the id, `HardDelete` fails with NotFoundError (and, the transaction being
rolled back, the store is untouched — the model returns the error without
a new store). -/
theorem C6_hard_delete (s : Store) (A now : Nat)
    (hrow : ∃ u ∈ s.tasks, u.id = A) :
    ∃ s2, hardDelete s A = .ok s2 ∧
      (∀ B, ∀ l ∈ getTaskLinks s2 B, l.fromTaskID ≠ A ∧ l.toTaskID ≠ A) ∧
      restoreTask s2 A now = .error .conflict ∧
      (∀ s3 : Store, (∀ u ∈ s3.tasks, u.id ≠ A) → hardDelete s3 A = .error .notFound) := by
  obtain ⟨u, hu, huid⟩ := hrow
  have hc : s.tasks.countP (fun t => t.id == A) ≠ 0 := by
    intro hz
    have := List.countP_eq_zero.mp hz u hu
    simp [huid] at this
  refine ⟨{ s with
      tasks := s.tasks.filter (fun t => !(t.id == A)),
      links := s.links.filter (fun l => !(l.fromTaskID == A || l.toTaskID == A)) },
    ?_, ?_, ?_, ?_⟩
  · unfold hardDelete
    rw [if_neg hc]
  · intro B l hl
    have hmem := (List.perm_insertionSort linkLE _).mem_iff.mp hl
    have h2 := List.mem_filter.mp hmem
    have h3 := List.mem_filter.mp h2.1
    have hpred := h3.2
    simp only [Bool.not_eq_true', Bool.or_eq_false_iff, beq_eq_false_iff_ne] at hpred
    exact hpred
  · have hz : (s.tasks.filter (fun t => !(t.id == A))).countP
        (fun t => t.id == A && t.deletedAt.isSome) = 0 := by
      rw [List.countP_eq_zero]
      intro v hv
      have := (List.mem_filter.mp hv).2
      simp only [Bool.not_eq_true', beq_eq_false_iff_ne] at this
      simp [this]
    simp [restoreTask, hz]
  · intro s3 hnone
    have hz : s3.tasks.countP (fun t => t.id == A) = 0 :=
      List.countP_eq_zero.mpr (fun v hv => by simpa using hnone v hv)
    simp [hardDelete, hz]

/-- Two tasks and a `blocks` link from 1 to 2, for the C6 witness. -/
def linkedStore : Store :=
  { tasks := [mkRow 1 1 "a" 1, mkRow 2 1 "b" 2],
    links := [{ id := 1, fromTaskID := 1, toTaskID := 2,
                linkType := "blocks".data, createdAt := 3 }],
    nextTaskID := 3, nextLinkID := 2 }

/-- C6, witness: hard-deleting task 1 of `linkedStore`. -/
theorem C6_hard_delete_witness :
    ∃ s2, hardDelete linkedStore 1 = .ok s2 ∧
      (∀ B, ∀ l ∈ getTaskLinks s2 B, l.fromTaskID ≠ 1 ∧ l.toTaskID ≠ 1) ∧
      restoreTask s2 1 7 = .error .conflict ∧
      (∀ s3 : Store, (∀ u ∈ s3.tasks, u.id ≠ 1) → hardDelete s3 1 = .error .notFound) :=
  C6_hard_delete linkedStore 1 7 (by decide)

/-- The pass `selStep` preserves the length of the suffix. -/
theorem selStep_length (cur : Task × Nat) (l : List (Task × Nat)) :
    (selStep cur l).2.length = l.length := by
  induction l generalizing cur with
  | nil => rfl
  | cons x xs ih => by_cases h : cur.2 < x.2 <;> simp [selStep, h, ih]

/-- One pass of the double loop permutes slot plus suffix. -/
theorem selStep_perm (cur : Task × Nat) (l : List (Task × Nat)) :
    List.Perm ((selStep cur l).1 :: (selStep cur l).2) (cur :: l) := by
  induction l generalizing cur with
  | nil => simp [selStep]
  | cons x xs ih =>
    by_cases h : cur.2 < x.2
    · have hs : selStep cur (x :: xs) = ((selStep x xs).1, cur :: (selStep x xs).2) := by
        simp [selStep, h]
      rw [hs]
      exact (List.Perm.swap cur (selStep x xs).1 (selStep x xs).2).trans ((ih x).cons cur)
    · have hs : selStep cur (x :: xs) = ((selStep cur xs).1, x :: (selStep cur xs).2) := by
        simp [selStep, h]
      rw [hs]
      exact ((List.Perm.swap x (selStep cur xs).1 (selStep cur xs).2).trans
        ((ih cur).cons x)).trans (List.Perm.swap cur x xs)

/-- After one pass, the slot holds a maximal score. -/
theorem selStep_head_max (cur : Task × Nat) (l : List (Task × Nat)) :
    cur.2 ≤ (selStep cur l).1.2 ∧ ∀ p ∈ (selStep cur l).2, p.2 ≤ (selStep cur l).1.2 := by
  induction l generalizing cur with
  | nil => simp [selStep]
  | cons x xs ih =>
    by_cases h : cur.2 < x.2
    · have hs : selStep cur (x :: xs) = ((selStep x xs).1, cur :: (selStep x xs).2) := by
        simp [selStep, h]
      rw [hs]
      refine ⟨le_of_lt (lt_of_lt_of_le h (ih x).1), ?_⟩
      intro p hp
      rcases List.mem_cons.mp hp with rfl | hp2
      · exact le_of_lt (lt_of_lt_of_le h (ih x).1)
      · exact (ih x).2 p hp2
    · have hs : selStep cur (x :: xs) = ((selStep cur xs).1, x :: (selStep cur xs).2) := by
        simp [selStep, h]
      rw [hs]
      refine ⟨(ih cur).1, ?_⟩
      intro p hp
      rcases List.mem_cons.mp hp with rfl | hp2
      · exact le_trans (Nat.le_of_not_lt h) (ih cur).1
      · exact (ih cur).2 p hp2

/-- The double loop permutes its input (fueled form). -/
theorem selSortGo_perm (n : Nat) (l : List (Task × Nat)) (h : l.length ≤ n) :
    List.Perm (selSortGo n l) l := by
  induction n generalizing l with
  | zero => exact List.Perm.refl l
  | succ n ih =>
    cases l with
    | nil => exact List.Perm.refl []
    | cons x xs =>
      have hlen : (selStep x xs).2.length ≤ n := by
        rw [selStep_length]
        simp at h
        omega
      have hs : selSortGo (n + 1) (x :: xs) =
          (selStep x xs).1 :: selSortGo n (selStep x xs).2 := by simp [selSortGo]
      rw [hs]
      exact ((ih _ hlen).cons _).trans (selStep_perm x xs)

/-- The double loop sorts by non-increasing score (fueled form). -/
theorem selSortGo_sorted (n : Nat) (l : List (Task × Nat)) (h : l.length ≤ n) :
    (selSortGo n l).Pairwise (fun a b => b.2 ≤ a.2) := by
  induction n generalizing l with
  | zero =>
    have hnil : l = [] := List.length_eq_zero.mp (Nat.le_zero.mp h)
    subst hnil
    simp [selSortGo]
  | succ n ih =>
    cases l with
    | nil => simp [selSortGo]
    | cons x xs =>
      have hlen : (selStep x xs).2.length ≤ n := by
        rw [selStep_length]
        simp at h
        omega
      have hs : selSortGo (n + 1) (x :: xs) =
          (selStep x xs).1 :: selSortGo n (selStep x xs).2 := by simp [selSortGo]
      rw [hs, List.pairwise_cons]
      refine ⟨?_, ih _ hlen⟩
      intro p hp
      exact (selStep_head_max x xs).2 p ((selSortGo_perm n _ hlen).mem_iff.mp hp)

/-- The score sort of `SearchTasks` permutes its input. -/
theorem selSort_perm (l : List (Task × Nat)) : List.Perm (selSort l) l :=
  selSortGo_perm _ _ le_rfl

/-- The score sort of `SearchTasks` yields non-increasing scores. -/
theorem selSort_sorted (l : List (Task × Nat)) :
    (selSort l).Pairwise (fun a b => b.2 ≤ a.2) :=
  selSortGo_sorted _ _ le_rfl

/-- Dropping the scores from the scored-and-filtered list recovers the
plain filter by positive score. -/
theorem scored_map_fst (f : Task → Nat) (l : List Task) :
    (l.filterMap (fun t => if 0 < f t then some (t, f t) else none)).map Prod.fst
      = l.filter (fun t => 0 < f t) := by
  induction l with
  | nil => rfl
  | cons x xs ih => by_cases h : 0 < f x <;> simp [h, ih]

/-- Every scored pair comes from the source list, carries the score of its
task, and that score is positive. -/
theorem mem_scored (f : Task → Nat) (l : List Task) (p : Task × Nat)
    (hp : p ∈ l.filterMap (fun t => if 0 < f t then some (t, f t) else none)) :
    p.1 ∈ l ∧ p.2 = f p.1 ∧ 0 < f p.1 := by
  obtain ⟨t, ht, heq⟩ := List.mem_filterMap.mp hp
  by_cases h : 0 < f t
  · rw [if_pos h] at heq
    cases heq
    exact ⟨ht, rfl, h⟩
  · rw [if_neg h] at heq
    cases heq

/-- C2, counterexample: on `c2Store` with query "x", tasks 1 ("ax") and
2 ("bx") score equally (510) and task 1 precedes task 2 in the listing,
yet the search result orders task 2 before task 1 — the swap-based sort is
not stable, refuting the claimed preservation of listing order among equal
scores. -/
theorem C2_counterexample :
    listTasks c2Store 1 = [mkRow 1 1 "ax" 1, mkRow 2 1 "bx" 2, mkRow 3 1 "x" 3] ∧
    scoreFor (prepQuery ("x".data)) (mkRow 1 1 "ax" 1) =
      scoreFor (prepQuery ("x".data)) (mkRow 2 1 "bx" 2) ∧
    searchTasks c2Store 1 ("x".data) =
      .ok [mkRow 3 1 "x" 3, mkRow 2 1 "bx" 2, mkRow 1 1 "ax" 1] := by decide

/-- C2, amended: any successful search returns the positive-score tasks of
the listing sorted by non-increasing score, as a permutation of that
filtered listing — but the order among equal scores is whatever the
swap-based selection sort produces, not necessarily the listing order. -/
theorem C2_search_sorted (s : Store) (bid : Nat) (q : Str) (res : List Task)
    (h : searchTasks s bid q = .ok res) :
    res.Pairwise (fun a b => scoreFor (prepQuery q) b ≤ scoreFor (prepQuery q) a) ∧
    res.Perm ((listTasks s bid).filter (fun t => 0 < scoreFor (prepQuery q) t)) := by
  unfold searchTasks at h
  by_cases hq : q = []
  · rw [if_pos hq] at h
    cases h
  · rw [if_neg hq] at h
    simp only [Except.ok.injEq] at h
    subst h
    constructor
    · rw [List.pairwise_map]
      refine (selSort_sorted _).imp_of_mem ?_
      intro a b ha hb hab
      have ha2 := mem_scored _ _ a ((selSort_perm _).mem_iff.mp ha)
      have hb2 := mem_scored _ _ b ((selSort_perm _).mem_iff.mp hb)
      rw [← ha2.2.1, ← hb2.2.1]
      exact hab
    · exact (((selSort_perm _).map Prod.fst).trans (List.Perm.refl _)).trans
        (scored_map_fst _ _ ▸ List.Perm.refl _)

/-- The inner word loop accumulates exactly the per-pair contributions. -/
theorem foldl_inner_eq (qw : Str) (tws : List Str) (n : Nat) :
    tws.foldl (fun acc2 tw =>
      if qw.isPrefixOf tw then acc2 + qw.length * 5
      else if containsStr tw qw then acc2 + qw.length * 2
      else acc2) n = n + (tws.map (fun tw => pairContribution qw tw)).sum := by
  induction tws generalizing n with
  | nil => simp
  | cons tw tws ih =>
    rw [List.foldl_cons, ih, List.map_cons, List.sum_cons]
    unfold pairContribution
    by_cases h1 : qw.isPrefixOf tw <;> by_cases h2 : containsStr tw qw <;>
      simp [h1, h2] <;> omega

/-- The outer word loop accumulates the sum over all pairs. -/
theorem foldl_outer_eq (qws tws : List Str) (n : Nat) :
    qws.foldl (fun acc qw =>
      tws.foldl (fun acc2 tw =>
        if qw.isPrefixOf tw then acc2 + qw.length * 5
        else if containsStr tw qw then acc2 + qw.length * 2
        else acc2) acc) n
      = n + (qws.map (fun qw =>
          (tws.map (fun tw => pairContribution qw tw)).sum)).sum := by
  induction qws generalizing n with
  | nil => simp
  | cons qw qws ih =>
    rw [List.foldl_cons, ih, foldl_inner_eq, List.map_cons, List.sum_cons]
    omega

/-- The loop-based score of the code equals the specification's sum-based
formula. -/
theorem fuzzy_eq_claim (title query : Str) :
    fuzzyMatchScore title query = claimScore title query := by
  unfold fuzzyMatchScore claimScore
  by_cases h1 : title = query
  · simp [h1]
  · by_cases h2 : containsStr title query
    · simp [h1, h2, Nat.mul_comm]
    · have hb := foldl_outer_eq (fieldsStr query) (fieldsStr title) 0
      simp only [Nat.zero_add] at hb
      simp only [h1, h2, if_false, Bool.false_eq_true]
      rw [hb]
      by_cases h3 : (fieldsStr query).length > 1 <;>
        by_cases h4 : 0 < ((fieldsStr query).map (fun qw =>
          ((fieldsStr title).map (fun tw => pairContribution qw tw)).sum)).sum <;>
        simp [h3, h4]

/-- C4: the fuzzy score is exactly the specification's formula — 1000 for
equality, 500 + 10·len(query) for a substring hit, otherwise the sum over
all (query word, title word) pairs of 5·len for word-start matches and
2·len for containment-only matches, plus the flat 50 multi-word bonus when
that sum is positive — and search results only ever contain tasks with a
positive score. -/
theorem C4_fuzzy_scoring :
    (∀ title query : Str, fuzzyMatchScore title query = claimScore title query) ∧
    (∀ (s : Store) (bid : Nat) (q : Str) (res : List Task),
      searchTasks s bid q = .ok res → ∀ t ∈ res, 0 < scoreFor (prepQuery q) t) := by
  refine ⟨fuzzy_eq_claim, ?_⟩
  intro s bid q res h t ht
  unfold searchTasks at h
  by_cases hq : q = []
  · rw [if_pos hq] at h
    cases h
  · rw [if_neg hq] at h
    simp only [Except.ok.injEq] at h
    subst h
    obtain ⟨p, hp, hfst⟩ := List.mem_map.mp ht
    have hm := mem_scored _ _ p ((selSort_perm _).mem_iff.mp hp)
    rw [← hfst]
    exact hm.2.2

/-- C4, witness: the P8 example score and a concrete search result. -/
theorem C4_fuzzy_scoring_witness :
    fuzzyMatchScore ("implement user authentication".data) ("auth".data) =
      claimScore ("implement user authentication".data) ("auth".data) ∧
    0 < scoreFor (prepQuery ("x".data)) (mkRow 3 1 "x" 3) :=
  ⟨C4_fuzzy_scoring.1 ("implement user authentication".data) ("auth".data),
   C4_fuzzy_scoring.2 c2Store 1 ("x".data)
     [mkRow 3 1 "x" 3, mkRow 2 1 "bx" 2, mkRow 1 1 "ax" 1] (by decide)
     (mkRow 3 1 "x" 3) (by decide)⟩

/-- C2, witness for the amended theorem on `c2Store`. -/
theorem C2_search_sorted_witness :
    ([mkRow 3 1 "x" 3, mkRow 2 1 "bx" 2, mkRow 1 1 "ax" 1] : List Task).Pairwise
      (fun a b => scoreFor (prepQuery ("x".data)) b ≤ scoreFor (prepQuery ("x".data)) a) ∧
    ([mkRow 3 1 "x" 3, mkRow 2 1 "bx" 2, mkRow 1 1 "ax" 1] : List Task).Perm
      ((listTasks c2Store 1).filter (fun t => 0 < scoreFor (prepQuery ("x".data)) t)) :=
  C2_search_sorted c2Store 1 ("x".data)
    [mkRow 3 1 "x" 3, mkRow 2 1 "bx" 2, mkRow 1 1 "ax" 1] (by decide)

end Cainban
